import Mathlib

/-!
Verification development for the git-mcp repository (GitLab variant).

The definitions below are a shallow embedding of the rate-governed GitLab
API client (`src/api/utils/gitlabClient.ts`), the document-resolution
cascade (`src/api/tools/commonTools.ts`, `fetchDocumentation`) and the
helpers they rely on (`src/api/utils/gitlab.ts`, `src/api/utils/r2.ts`).
JavaScript values that matter to the control flow are modelled explicitly:
nullable strings are `Option String`, numbers that may be `NaN` are
`Option Int` (`none` = `NaN`), and JS truthiness is spelled out where the
source branches on it.
-/

set_option linter.unusedVariables false

/-- A JavaScript number that may be `NaN` (`none` models `NaN`). -/
abbrev JsNum := Option Int

/-- JS comparison `a < b` where `a` may be `NaN`: any comparison with `NaN`
is false. -/
def jsLtNum (a : JsNum) (b : Int) : Bool :=
  match a with
  | some x => decide (x < b)
  | none => false

/-- Multiplication by a constant, propagating `NaN`. -/
def jsMulNum (a : JsNum) (b : Int) : JsNum := a.map (fun x => x * b)

/-- JS truthiness of a nullable string: truthy iff non-null and non-empty. -/
def truthyS : Option String → Bool
  | some s => s != ""
  | none => false

/-- Digit prefix of a character list. -/
def jsDigits (cs : List Char) : List Char := cs.takeWhile Char.isDigit

/-- Numeric value of a digit list. -/
def jsDigitsVal (cs : List Char) : Nat :=
  cs.foldl (fun acc c => acc * 10 + (c.toNat - 48)) 0

/-- Parse a maximal digit prefix with a sign; `none` models `NaN`. -/
def jsParseIntCore (cs : List Char) (sign : Int) : JsNum :=
  match jsDigits cs with
  | [] => none
  | ds => some (sign * (jsDigitsVal ds : Int))

/-- Model of JavaScript `parseInt(s, 10)`: leading whitespace is skipped,
an optional sign is consumed, the maximal digit prefix is the value, and
the result is `NaN` (`none`) when no digit is found. -/
def jsParseInt (s : String) : JsNum :=
  let cs := s.toList.dropWhile
    (fun c => c == ' ' || c == '\t' || c == '\n' || c == '\r')
  match cs with
  | '-' :: rest => jsParseIntCore rest (-1)
  | '+' :: rest => jsParseIntCore rest 1
  | rest => jsParseIntCore rest 1

/-- Model of JS `s.split("/").pop()`: the suffix of `s` after its last
`/` (the whole string when there is no `/`, and the empty string when `s`
ends in `/`), which is exactly the last element of the split. -/
def jsSplitPop (s : String) : String :=
  ((s.toList.reverse.takeWhile (fun c => c != '/')).reverse).asString

/-- Rate limiting state (`RateLimitInfo` in `gitlabClient.ts`).
`resetTime` is `null` (`none`) or a JS `Date` whose epoch-millisecond value
may itself be `NaN` for an invalid date (`some none`). -/
structure RateLimitInfo where
  remaining : JsNum
  resetTime : Option JsNum
  limit : JsNum
deriving DecidableEq, Repr

/-- The module-level initial value of `apiRateLimit`. -/
def initialRateLimit : RateLimitInfo :=
  { remaining := some 2000, resetTime := none, limit := some 2000 }

/-- The three GitLab rate-limit response headers
(`ratelimit-remaining`, `ratelimit-reset`, `ratelimit-limit`), each absent
(`none`, i.e. `headers.get` returned `null`) or a raw string value. -/
structure RateHeaders where
  ratelimitRemaining : Option String
  ratelimitReset : Option String
  ratelimitLimit : Option String
deriving DecidableEq, Repr

/-- A response with none of the three rate-limit headers. -/
def noHeaders : RateHeaders := { ratelimitRemaining := none, ratelimitReset := none, ratelimitLimit := none }

/-- `updateRateLimitFromHeaders` (`gitlabClient.ts` lines 71-91): each of the
three headers is read; a field is overwritten only when its header value is
truthy (non-null and non-empty), `remaining` and `limit` via `parseInt`,
`resetTime` via `new Date(parseInt(v, 10) * 1000)`. -/
def updateRateLimitFromHeaders (h : RateHeaders) (st : RateLimitInfo) : RateLimitInfo :=
  let st1 := match h.ratelimitRemaining with
    | some s => if s != "" then { st with remaining := jsParseInt s } else st
    | none => st
  let st2 := match h.ratelimitReset with
    | some s => if s != "" then { st1 with resetTime := some (jsMulNum (jsParseInt s) 1000) } else st1
    | none => st1
  match h.ratelimitLimit with
  | some s => if s != "" then { st2 with limit := jsParseInt s } else st2
  | none => st2

/-- `DEFAULT_DELAY` in `gitlabClient.ts`. -/
def DEFAULT_DELAY : Int := 1000

/-- `MAX_RETRIES` in `gitlabClient.ts`. -/
def MAX_RETRIES : Nat := 3

/-- Milliseconds slept by `respectRateLimits` (`gitlabClient.ts` lines
96-114) given the rate state and the current time: when `remaining < 5` and
`resetTime` is non-null, it sleeps `min(timeUntilReset + 1000, 60000)` if
the reset lies in the future and otherwise does not sleep at all; in every
other case it sleeps the fixed `DEFAULT_DELAY`. An invalid `Date`
(`some none`) makes `timeUntilReset` `NaN`, whose comparison with `0` is
false, so no sleep happens. -/
def respectRateLimitsDelay (st : RateLimitInfo) (now : Int) : Int :=
  if jsLtNum st.remaining 5 && st.resetTime.isSome then
    match st.resetTime with
    | some (some rt) =>
      let timeUntilReset := rt - now
      if timeUntilReset > 0 then min (timeUntilReset + 1000) 60000 else 0
    | _ => 0
  else DEFAULT_DELAY

/-- An HTTP response as seen by `gitlabApiRequest`: status code, the
rate-limit headers, and an opaque body used to tell responses apart. -/
structure GLResponse where
  status : Nat
  headers : RateHeaders
  body : String
deriving DecidableEq, Repr

/-- Outcome of one `fetch` attempt: either the promise rejects (network
failure, no response at all) or a response arrives. -/
inductive FetchOutcome where
  | networkError
  | success (resp : GLResponse)
deriving DecidableEq, Repr

/-- The arguments of one (re-)invocation of `gitlabApiRequest`. -/
structure CallRec where
  url : String
  options : String
  useAuth : Bool
  retryCount : Nat
deriving DecidableEq, Repr

/-- What a recorded suspension was for. -/
inductive WaitKind where
  | preCall
  | throttle
  | network
deriving DecidableEq, Repr

/-- Observable event of the governed client: an invocation with its
arguments, or a suspension (whose duration may be `NaN`). -/
inductive GLEvent where
  | call (c : CallRec)
  | wait (ms : JsNum) (kind : WaitKind)
deriving DecidableEq, Repr

/-- The 429 backoff (`gitlabClient.ts` lines 215-221): if `resetTime` is
non-null, `max(1000, resetTime - now + 1000)` (NaN for an invalid date,
since `Math.max` propagates NaN), else a flat `60000`. -/
def wait429 (st : RateLimitInfo) (now : Int) : JsNum :=
  match st.resetTime with
  | none => some 60000
  | some (some rt) => some (max 1000 (rt - now + 1000))
  | some none => none

/-- Core of `gitlabApiRequest` (`gitlabClient.ts` lines 140-248), by
recursion on the number of retries still allowed
(`retriesLeft = MAX_RETRIES - retryCount`; the source guard
`retryCount < MAX_RETRIES` holds exactly when `retriesLeft ≠ 0`).
`oracle k` is the outcome of the fetch performed by the invocation whose
`retryCount` is `k`, and `nowAt k` is the clock during that invocation.
Returns the final value (`none` models the function returning `null`), the
final rate-limit state, and the trace of calls and suspensions. On each
invocation the client sleeps `respectRateLimitsDelay`, fetches, and on a
response first runs `updateRateLimitFromHeaders`; a 429 with retries left
sleeps `wait429` and re-invokes, a rejected fetch with retries left sleeps a
flat 2000 ms and re-invokes, and both re-invocations pass
`url, options, env, retryCount + 1` — the `useAuth` argument is NOT
forwarded, so it takes its default value `true`. -/
def gitlabApiRequestGo (oracle : Nat → FetchOutcome) (nowAt : Nat → Int)
    (url options : String) :
    Nat → Bool → Nat → RateLimitInfo →
      Option GLResponse × RateLimitInfo × List GLEvent
  | 0, useAuth, retryCount, st =>
    let pre := GLEvent.wait (some (respectRateLimitsDelay st (nowAt retryCount))) WaitKind.preCall
    let cv := GLEvent.call { url := url, options := options, useAuth := useAuth, retryCount := retryCount }
    (match oracle retryCount with
     | FetchOutcome.networkError => (none, st, [pre, cv])
     | FetchOutcome.success r =>
       let st1 := updateRateLimitFromHeaders r.headers st
       (some r, st1, [pre, cv]))
  | n+1, useAuth, retryCount, st =>
    let pre := GLEvent.wait (some (respectRateLimitsDelay st (nowAt retryCount))) WaitKind.preCall
    let cv := GLEvent.call { url := url, options := options, useAuth := useAuth, retryCount := retryCount }
    (match oracle retryCount with
     | FetchOutcome.networkError =>
       let rest := gitlabApiRequestGo oracle nowAt url options n true (retryCount+1) st
       (rest.1, rest.2.1, pre :: cv :: GLEvent.wait (some 2000) WaitKind.network :: rest.2.2)
     | FetchOutcome.success r =>
       let st1 := updateRateLimitFromHeaders r.headers st
       if r.status == 429 then
         let w := wait429 st1 (nowAt retryCount)
         let rest := gitlabApiRequestGo oracle nowAt url options n true (retryCount+1) st1
         (rest.1, rest.2.1, pre :: cv :: GLEvent.wait w WaitKind.throttle :: rest.2.2)
       else (some r, st1, [pre, cv]))

/-- `gitlabApiRequest(url, options, env, retryCount, useAuth)`. -/
def gitlabApiRequest (oracle : Nat → FetchOutcome) (nowAt : Nat → Int)
    (url options : String) (useAuth : Bool) (retryCount : Nat)
    (st : RateLimitInfo) : Option GLResponse × RateLimitInfo × List GLEvent :=
  gitlabApiRequestGo oracle nowAt url options (MAX_RETRIES - retryCount) useAuth retryCount st

/-- The invocation records inside a trace. -/
def callsOf (evs : List GLEvent) : List CallRec :=
  evs.filterMap fun e =>
    match e with
    | GLEvent.call c => some c
    | GLEvent.wait _ _ => none

/-- An outcome that makes `gitlabApiRequest` retry when retries remain:
a network failure or a 429 response. -/
def isRetryOutcome : FetchOutcome → Bool
  | FetchOutcome.networkError => true
  | FetchOutcome.success r => r.status == 429

/-- One raw item of the GitLab blob-search response, with the fields
`searchFileByName` and `searchCode` read (`filename`, `path`, `project_id`,
`ref`), each possibly absent. -/
structure RawSearchItem where
  filename : Option String
  path : Option String
  projectId : Option Nat
  ref : Option String
deriving DecidableEq, Repr

/-- One transformed item of the GitHub-like structure built by
`searchFileByName` (`gitlabClient.ts` lines 345-351). -/
structure SearchResultItem where
  path : Option String
  htmlUrl : Option String
  repositoryFullName : String
deriving DecidableEq, Repr

/-- The GitHub-like response of `searchFileByName`. -/
structure SearchResponse where
  totalCount : Nat
  items : List SearchResultItem
deriving DecidableEq, Repr

/-- JS `a || b` on nullable strings: `a` when truthy, else `b`. -/
def jsOrOS (a b : Option String) : Option String :=
  if truthyS a then a else b

/-- JS string interpolation of a nullable value: `undefined` prints as
the string "undefined". -/
def jsTemplate (o : Option String) : String :=
  match o with
  | some s => s
  | none => "undefined"

/-- The filter predicate of `searchFileByName` (`gitlabClient.ts` lines
337-340): `(item.filename || item.path?.split("/").pop()) === filename`.
A falsy `filename` field falls back to the last segment of `path` (or to
`undefined` when `path` is absent, which never equals a string). -/
def matchFilename (filename : String) (it : RawSearchItem) : Bool :=
  let itemFilename : Option String :=
    match it.filename with
    | some s => if s != "" then some s else it.path.map jsSplitPop
    | none => it.path.map jsSplitPop
  itemFilename == some filename

/-- The per-item transformation of `searchFileByName` (lines 345-351):
`path` is `item.path || item.filename`; `html_url` is built only when
`item.project_id` is truthy (non-zero), using `item.ref || "main"`. -/
def transformItem (gitlabBase ns proj : String) (it : RawSearchItem) : SearchResultItem :=
  { path := jsOrOS it.path it.filename
    htmlUrl :=
      match it.projectId with
      | some pid =>
        if pid != 0 then
          some (gitlabBase ++ "/" ++ ns ++ "/" ++ proj ++ "/-/blob/" ++
            (match it.ref with | some r => if r != "" then r else "main" | none => "main") ++
            "/" ++ jsTemplate (jsOrOS it.path it.filename))
        else none
      | none => none
    repositoryFullName := ns ++ "/" ++ proj }

/-- `searchFileByName` (`gitlabClient.ts` lines 314-353), with the HTTP
layer abstracted as `resp`: `none` when `gitlabApiRequest` returned `null`,
otherwise the `ok` flag and parsed JSON array. A failed request returns
`null`; otherwise the raw results are filtered down to exact filename
matches and transformed, with `total_count` the number of exact matches. -/
def searchFileByName (filename ns proj gitlabBase : String)
    (resp : Option (Bool × List RawSearchItem)) : Option SearchResponse :=
  match resp with
  | none => none
  | some (ok, results) =>
    if !ok then none
    else
      let exactMatches := results.filter (matchFilename filename)
      some { totalCount := exactMatches.length
             items := exactMatches.map (transformItem gitlabBase ns proj) }

/-- URL classification of the incoming request (`shared/repoData.ts`). -/
inductive UrlType where
  | subdomain
  | gitlab
  | unknown
deriving DecidableEq, Repr

/-- The repository coordinates handed to `fetchDocumentation`; `nspace`
embeds the JS field `namespace` (a Lean keyword). -/
structure RepoData where
  nspace : Option String
  project : Option String
  urlType : UrlType
deriving DecidableEq, Repr

/-- One `{ type: "text", text }` block (the `type` tag is always the
literal "text" and is left implicit). -/
structure TextContent where
  text : String
deriving DecidableEq, Repr

/-- The return type of `fetchDocumentation`. -/
structure FetchDocumentationResult where
  fileUsed : String
  content : List TextContent
deriving DecidableEq, Repr

/-- Result of `searchGitLabRepo` (`gitlab.ts`): a found path and content. -/
structure GitLabFile where
  path : String
  content : String
deriving DecidableEq, Repr

/-- Result of `fetchFileWithRobotsTxtCheck` for GitLab Pages fetches. -/
structure PagesFetch where
  blockedByRobots : Bool
  content : Option String
deriving DecidableEq, Repr

/-- The environment a single `fetchDocumentation` run observes: the content
cache lookup result, the resolved default branch, and one oracle per
collaborator (static raw-file fetches by location, `searchGitLabRepo` by
query, the pre-generated R2 blob, GitLab Pages fetches by URL, and the
`html-to-md` conversion, `none` when it throws). -/
structure ResolverEnv where
  cached : Option FetchDocumentationResult
  repoBranch : String
  staticFetch : String → Option String
  search : String → Option GitLabFile
  r2llms : Option String
  pages : String → PagesFetch
  htmlToMd : String → Option String
  gitlabBaseUrl : String

/-- Side effects of a `fetchDocumentation` run, in program order. -/
inductive REffect where
  | cacheRead (ns proj : String)
  | gitlabCall (tag : String)
  | r2Get (ns proj file : String)
  | pagesFetch (url : String)
  | enqueue (ns proj : String) (content : Option String)
      (fileUsed docsPath docsBranch : String)
  | cacheWrite (ns proj : String) (res : FetchDocumentationResult) (ttl : Nat)
deriving DecidableEq, Repr

/-- `constructGitlabUrl` (`gitlab.ts` lines 98-107). -/
def constructGitlabUrl (baseUrl ns proj branch path : String) : String :=
  baseUrl ++ "/" ++ ns ++ "/" ++ proj ++ "/-/raw/" ++ branch ++ "/" ++ path

/-- The ordered static candidate list (`commonTools.ts` lines 124-128). -/
def possibleLocations : List String :=
  ["docs/docs/llms.txt", "llms.txt", "docs/llms.txt"]

/-- One gathered static-probe result (`commonTools.ts` lines 147-152). -/
structure ProbeResult where
  content : Option String
  location : String
  branch : String
deriving DecidableEq, Repr

/-- The selection loop over the gathered static-probe results
(`commonTools.ts` lines 154-171): scan `possibleLocations` in list order
and take, for the first location that has one, the first gathered result
for that location whose content is non-null. -/
def selectStatic (results : List ProbeResult) : Option ProbeResult :=
  possibleLocations.findSome? fun loc =>
    results.find? fun r => r.location == loc && r.content.isSome

/-- The selection the specification text describes (for comparison with
`selectStatic`, which is the code's): the first list entry whose fetched
content is NON-EMPTY wins. -/
def selectStaticSpec (results : List ProbeResult) : Option ProbeResult :=
  possibleLocations.findSome? fun loc =>
    results.find? fun r => r.location == loc && truthyS r.content

/-- The JS guard `namespace && project`: both coordinates truthy. -/
def nsProj (repo : RepoData) : Option (String × String) :=
  match repo.nspace, repo.project with
  | some a, some b => if a != "" && b != "" then some (a, b) else none
  | _, _ => none

/-- The mutable locals of `fetchDocumentation` while a run resolves. -/
structure DocState where
  fileUsed : String
  content : Option String
  docsPath : String
  docsBranch : String
deriving DecidableEq, Repr

/-- Static-path selection applied to a run's locals (`commonTools.ts`
lines 154-171): a hit sets `content`, the constant label `llms.txt`, and
the raw URL of the found location; a miss leaves the initial state. -/
def cascadeStatic (ns proj : String) (env : ResolverEnv) : DocState :=
  let docsBranch := env.repoBranch
  let results := possibleLocations.map fun loc =>
    ProbeResult.mk (env.staticFetch loc) loc docsBranch
  match selectStatic results with
  | some r =>
    { fileUsed := "llms.txt", content := r.content
      docsPath := constructGitlabUrl env.gitlabBaseUrl ns proj r.branch r.location
      docsBranch := docsBranch }
  | none =>
    { fileUsed := "unknown", content := none, docsPath := "", docsBranch := docsBranch }

/-- The GitLab search fallback (`commonTools.ts` lines 174-192), run only
when `content` is still falsy. -/
def cascadeSearch (env : ResolverEnv) (st : DocState) : DocState × List REffect :=
  if truthyS st.content then (st, [])
  else
    match env.search "llms.txt" with
    | some gf =>
      ({ st with fileUsed := "llms.txt", content := some gf.content, docsPath := gf.path },
        [REffect.gitlabCall "searchGitLabRepo:llms.txt"])
    | none => (st, [REffect.gitlabCall "searchGitLabRepo:llms.txt"])

/-- The R2 fallback (`commonTools.ts` lines 195-204), run only when
`content` is still falsy; note that `content` is overwritten by the R2
value unconditionally (`?? null`), and the label changes only when the
fetched value is truthy. -/
def cascadeR2 (ns proj : String) (env : ResolverEnv) (st : DocState) : DocState × List REffect :=
  if truthyS st.content then (st, [])
  else
    let c := env.r2llms
    (if truthyS c then { st with content := c, fileUsed := "llms.txt (generated)" }
     else { st with content := c },
     [REffect.r2Get ns proj "llms.txt"])

/-- The root-README search fallback (`commonTools.ts` lines 207-246), run
only when `content` is still falsy: re-resolve the branch if it is falsy,
search `README+path:/`, and on a hit use the matched path's last segment
(or the full path when that segment is empty) as the label. -/
def cascadeReadme (ns proj : String) (env : ResolverEnv) (st : DocState) : DocState × List REffect :=
  if truthyS st.content then (st, [])
  else
    let brEff : String × List REffect :=
      if st.docsBranch == "" then (env.repoBranch, [REffect.gitlabCall "getRepoBranch"])
      else (st.docsBranch, [])
    let br := brEff.1
    match env.search "README+path:/" with
    | some gf =>
      let fn := jsSplitPop gf.path
      ({ fileUsed := if fn != "" then fn else gf.path
         content := some gf.content
         docsPath := constructGitlabUrl env.gitlabBaseUrl ns proj br gf.path
         docsBranch := br },
        brEff.2 ++ [REffect.gitlabCall "searchGitLabRepo:README"])
    | none =>
      ({ st with docsBranch := br }, brEff.2 ++ [REffect.gitlabCall "searchGitLabRepo:README"])

/-- The whole gitlab-urlType cascade (`commonTools.ts` lines 119-251):
branch resolution, the three parallel static-path fetches, then the three
fallbacks in order. -/
def gitlabCascade (ns proj : String) (env : ResolverEnv) : DocState × List REffect :=
  let e0 : List REffect :=
    [REffect.gitlabCall "getRepoBranch"] ++
      possibleLocations.map fun loc => REffect.gitlabCall ("fetchFileFromGitLab:" ++ loc)
  let st0 := cascadeStatic ns proj env
  let s1 := cascadeSearch env st0
  let s2 := cascadeR2 ns proj env s1.1
  let s3 := cascadeReadme ns proj env s2.1
  (s3.1, e0 ++ s1.2 ++ s2.2 ++ s3.2)

/-- The robots.txt refusal text (`commonTools.ts` lines 114-118). -/
def robotsMessage : String :=
  "Access to this GitLab Pages site is restricted by robots.txt. GitMCP respects robots.txt directives."

/-- The subdomain (GitLab Pages) flow (`commonTools.ts` lines 56-118):
try `llms.txt`, then the landing page converted to Markdown, then
`README.md`, each behind a robots.txt check; any robots block wins and
replaces the content with `robotsMessage`. A `null` namespace interpolates
as the string "null", as in JS. -/
def subdomainFlow (repo : RepoData) (env : ResolverEnv) : DocState × List REffect :=
  let nsStr := match repo.nspace with | some s => s | none => "null"
  let pathWithSlash := match repo.project with
    | some p => if p != "" then "/" ++ p else ""
    | none => ""
  let baseURL := "https://" ++ nsStr ++ ".gitlab.io" ++ pathWithSlash ++ "/"
  let blockedState : DocState :=
    { fileUsed := "robots.txt restriction", content := some robotsMessage
      docsPath := "", docsBranch := "" }
  let r1 := env.pages (baseURL ++ "llms.txt")
  let eA := [REffect.pagesFetch (baseURL ++ "llms.txt")]
  if r1.blockedByRobots then (blockedState, eA)
  else if truthyS r1.content then
    ({ fileUsed := "llms.txt", content := r1.content, docsPath := "", docsBranch := "" }, eA)
  else
    let r2p := env.pages baseURL
    let eB := eA ++ [REffect.pagesFetch baseURL]
    if r2p.blockedByRobots then (blockedState, eB)
    else
      let landing : DocState :=
        if truthyS r2p.content then
          match env.htmlToMd (r2p.content.getD "") with
          | some md =>
            { fileUsed := "landing page (index.html, converted to Markdown)"
              content := some md, docsPath := "", docsBranch := "" }
          | none =>
            { fileUsed := "unknown", content := none, docsPath := "", docsBranch := "" }
        else { fileUsed := "unknown", content := none, docsPath := "", docsBranch := "" }
      if truthyS landing.content then (landing, eB)
      else
        let r3 := env.pages (baseURL ++ "README.md")
        let eC := eB ++ [REffect.pagesFetch (baseURL ++ "README.md")]
        if r3.blockedByRobots then (blockedState, eC)
        else if truthyS r3.content then
          ({ fileUsed := "README.md", content := r3.content, docsPath := "", docsBranch := "" }, eC)
        else (landing, eC)

/-- The sentinel text for total exhaustion (`commonTools.ts` line 268). -/
def sentinelText : String := "No documentation found."

/-- `cacheTTL` in `fetchDocumentation`: 30 minutes in seconds. -/
def cacheTTL : Nat := 30 * 60

/-- `fetchDocumentation` after the content-cache check (`commonTools.ts`
lines 48-299): run the branch selected by `urlType` (the gitlab cascade
additionally requires truthy coordinates), then fire the background
enqueue, and either return the sentinel (with NO content-cache write) when
the resolved content is falsy, or return the result and schedule its
content-cache write. The urlType dispatch (lines 56-251) is split out as
`resolveByUrlType`. -/
def resolveByUrlType (repo : RepoData) (env : ResolverEnv) : DocState × List REffect :=
  match repo.urlType with
  | UrlType.subdomain => subdomainFlow repo env
  | UrlType.gitlab =>
    match nsProj repo with
    | some (ns, proj) => gitlabCascade ns proj env
    | none => ({ fileUsed := "unknown", content := none, docsPath := "", docsBranch := "" }, [])
  | UrlType.unknown => ({ fileUsed := "unknown", content := none, docsPath := "", docsBranch := "" }, [])

def fetchDocumentationCore (repo : RepoData) (env : ResolverEnv) :
    FetchDocumentationResult × List REffect :=
  let stEff : DocState × List REffect := resolveByUrlType repo env
  let st := stEff.1
  let effEnq : List REffect :=
    match nsProj repo with
    | some (ns, proj) => [REffect.enqueue ns proj st.content st.fileUsed st.docsPath st.docsBranch]
    | none => []
  if truthyS st.content then
    let result : FetchDocumentationResult :=
      { fileUsed := st.fileUsed, content := [{ text := st.content.getD "" }] }
    let effW : List REffect :=
      match nsProj repo with
      | some (ns, proj) => [REffect.cacheWrite ns proj result cacheTTL]
      | none => []
    (result, stEff.2 ++ effEnq ++ effW)
  else
    ({ fileUsed := st.fileUsed, content := [{ text := sentinelText }] }, stEff.2 ++ effEnq)

/-- `fetchDocumentation` (`commonTools.ts` lines 25-299): when both
coordinates are truthy, consult the content cache first and return a live
entry immediately, with no further effect of any kind. -/
def fetchDocumentation (repo : RepoData) (env : ResolverEnv) :
    FetchDocumentationResult × List REffect :=
  match nsProj repo with
  | some (ns, proj) =>
    (match env.cached with
     | some r => (r, [REffect.cacheRead ns proj])
     | none =>
       let ce := fetchDocumentationCore repo env
       (ce.1, REffect.cacheRead ns proj :: ce.2))
  | none => fetchDocumentationCore repo env

/-- Modelled from the spec: the content cache (the repository's
`src/api/utils/cache.js`, which implements `getCachedFetchDocResult` and
`cacheFetchDocResult`, is not among the provided sources). Spec section
4.3: a cache entry is a value with an `expiresAt` timestamp; `put` stores
the value with `expiresAt = now + ttl`; a lookup treats an expired entry as
absent (lazy expiry). -/
structure CacheEntry (α : Type) where
  value : α
  expiresAt : Int
deriving DecidableEq, Repr

/-- Modelled from the spec: cache lookup with lazy expiry — a live entry
(current time strictly before `expiresAt`) is returned, anything else is
absent. -/
def cacheGet {α : Type} (e : Option (CacheEntry α)) (now : Int) : Option α :=
  match e with
  | some entry => if now < entry.expiresAt then some entry.value else none
  | none => none

/-- Modelled from the spec: cache write with a time-to-live. -/
def cachePut {α : Type} (v : α) (ttl : Int) (now : Int) : CacheEntry α :=
  { value := v, expiresAt := now + ttl }

/-- Recognizer for content-cache writes among resolver effects. -/
def isCacheWrite : REffect → Bool
  | REffect.cacheWrite _ _ _ _ => true
  | _ => false

/-! Theorems -/

/-- A rate state with few requests remaining and a reset time in the past. -/
def c6StPast : RateLimitInfo :=
  { remaining := some 4, resetTime := some (some 1000), limit := some 2000 }

/-- A rate state with few requests remaining and a reset time in the future. -/
def c6StFut : RateLimitInfo :=
  { remaining := some 4, resetTime := some (some 7000), limit := some 2000 }

/-- C6 counterexample: with `remaining < 5` and a reset time already in the
past, `respectRateLimits` does not suspend at all (0 ms) — not the claimed
fixed inter-request delay of 1000 ms. -/
theorem respectRateLimitsDelay_pastReset_noDelay :
    respectRateLimitsDelay c6StPast 5000 = 0 ∧
    respectRateLimitsDelay c6StPast 5000 ≠ DEFAULT_DELAY := by decide

/-- C6 (amended): before issuing a call the client suspends
`min(timeUntilReset + 1000, 60000)` when `remaining < 5` and `resetTime`
is set and in the future; when `remaining < 5` and `resetTime` is set but
NOT in the future (or is an invalid date) it does not suspend at all; and
it suspends the fixed 1000 ms delay when `remaining` is not below 5 or
`resetTime` is absent. -/
theorem respectRateLimitsDelay_characterization (st : RateLimitInfo) (now : Int) :
    (∀ rt : Int, st.resetTime = some (some rt) → jsLtNum st.remaining 5 = true →
      rt - now > 0 → respectRateLimitsDelay st now = min (rt - now + 1000) 60000) ∧
    (∀ rt : Int, st.resetTime = some (some rt) → jsLtNum st.remaining 5 = true →
      rt - now ≤ 0 → respectRateLimitsDelay st now = 0) ∧
    (st.resetTime = some none → jsLtNum st.remaining 5 = true →
      respectRateLimitsDelay st now = 0) ∧
    (jsLtNum st.remaining 5 = false → respectRateLimitsDelay st now = DEFAULT_DELAY) ∧
    (st.resetTime = none → respectRateLimitsDelay st now = DEFAULT_DELAY) := by
  refine ⟨?_, ?_, ?_, ?_, ?_⟩
  · intro rt h1 h2 h3
    simp [respectRateLimitsDelay, h1, h2, h3]
  · intro rt h1 h2 h3
    simp [respectRateLimitsDelay, h1, h2, show ¬(rt - now > 0) from not_lt.mpr h3]
  · intro h1 h2
    simp [respectRateLimitsDelay, h1, h2]
  · intro h1
    simp [respectRateLimitsDelay, h1]
  · intro h1
    simp [respectRateLimitsDelay, h1]

/-- Witness for the C6 theorem at a concrete state and clock. -/
theorem respectRateLimitsDelay_characterization_witness :
    respectRateLimitsDelay c6StFut 1000 = min (7000 - 1000 + 1000) 60000 :=
  (respectRateLimitsDelay_characterization c6StFut 1000).1 7000 rfl (by decide) (by decide)

/-- A response carrying the remaining-quota header with an empty value. -/
def emptyRemainingHeader : RateHeaders :=
  { ratelimitRemaining := some "", ratelimitReset := none, ratelimitLimit := none }

/-- C7 counterexample: a present `ratelimit-remaining` header with an empty
value leaves the state completely unchanged (JS truthiness treats `""` as
absent), although the claim requires every present header's field to be
updated — and the parse of `""` differs from the untouched field. -/
theorem updateRateLimitFromHeaders_emptyValue_ignored :
    updateRateLimitFromHeaders emptyRemainingHeader initialRateLimit = initialRateLimit ∧
    emptyRemainingHeader.ratelimitRemaining ≠ none ∧
    jsParseInt "" ≠ initialRateLimit.remaining := by decide

/-- C7 (amended): `updateRateLimitFromHeaders` updates exactly the state
fields whose header is present WITH A NON-EMPTY VALUE and leaves every
other field unchanged; applying it twice with identical headers equals
applying it once. -/
theorem updateRateLimitFromHeaders_frame (h : RateHeaders) (st : RateLimitInfo) :
    (truthyS h.ratelimitRemaining = false →
      (updateRateLimitFromHeaders h st).remaining = st.remaining) ∧
    (∀ s, h.ratelimitRemaining = some s → s ≠ "" →
      (updateRateLimitFromHeaders h st).remaining = jsParseInt s) ∧
    (truthyS h.ratelimitReset = false →
      (updateRateLimitFromHeaders h st).resetTime = st.resetTime) ∧
    (∀ s, h.ratelimitReset = some s → s ≠ "" →
      (updateRateLimitFromHeaders h st).resetTime = some (jsMulNum (jsParseInt s) 1000)) ∧
    (truthyS h.ratelimitLimit = false →
      (updateRateLimitFromHeaders h st).limit = st.limit) ∧
    (∀ s, h.ratelimitLimit = some s → s ≠ "" →
      (updateRateLimitFromHeaders h st).limit = jsParseInt s) ∧
    updateRateLimitFromHeaders h (updateRateLimitFromHeaders h st) =
      updateRateLimitFromHeaders h st := by
  obtain ⟨r, rs, l⟩ := h
  refine ⟨?_, ?_, ?_, ?_, ?_, ?_, ?_⟩ <;>
    cases r <;> cases rs <;> cases l <;>
      simp_all [updateRateLimitFromHeaders, truthyS] <;>
        split_ifs <;> simp_all

/-- Witness for the C7 theorem at concrete headers and state. -/
theorem updateRateLimitFromHeaders_frame_witness :
    (updateRateLimitFromHeaders { ratelimitRemaining := some "7", ratelimitReset := none, ratelimitLimit := some "" } initialRateLimit).remaining = jsParseInt "7" ∧
    (updateRateLimitFromHeaders { ratelimitRemaining := some "7", ratelimitReset := none, ratelimitLimit := some "" } initialRateLimit).resetTime = initialRateLimit.resetTime ∧
    (updateRateLimitFromHeaders { ratelimitRemaining := some "7", ratelimitReset := none, ratelimitLimit := some "" } initialRateLimit).limit = initialRateLimit.limit :=
  ⟨(updateRateLimitFromHeaders_frame _ initialRateLimit).2.1 "7" rfl (by decide),
   (updateRateLimitFromHeaders_frame _ initialRateLimit).2.2.1 (by decide),
   (updateRateLimitFromHeaders_frame _ initialRateLimit).2.2.2.2.1 (by decide)⟩

/-- Gathered results as in `commonTools.ts` but in an arbitrary order:
looking up a location finds its probe result exactly when the location
occurs and its fetch succeeded — independent of where it occurs. -/
theorem find_probe_result (f : String → Option String) (b loc : String)
    (order : List String) :
    (order.map fun l => ProbeResult.mk (f l) l b).find?
        (fun r => r.location == loc && r.content.isSome) =
      if loc ∈ order ∧ (f loc).isSome then some (ProbeResult.mk (f loc) loc b)
      else none := by
  induction order with
  | nil => simp
  | cons a rest ih =>
    by_cases ha : a = loc
    · subst ha
      cases hf : (f a).isSome with
      | true =>
        rw [List.map_cons, List.find?_cons_of_pos _ (by simp [hf])]
        simp [hf]
      | false =>
        rw [List.map_cons, List.find?_cons_of_neg _ (by simp [hf]), ih]
        simp [hf]
    · rw [List.map_cons, List.find?_cons_of_neg _ (by simp [ha]), ih]
      simp [Ne.symm ha]

/-- Probe results where the first candidate's file exists but is empty and
the second candidate has real content. -/
def probeEx : List ProbeResult :=
  [{ content := some "", location := "docs/docs/llms.txt", branch := "main" },
   { content := some "X", location := "llms.txt", branch := "main" },
   { content := none, location := "docs/llms.txt", branch := "main" }]

/-- C2 counterexample: the code's selection takes the first candidate
whose fetched content is non-NULL, so a successfully fetched EMPTY
`docs/docs/llms.txt` wins over a non-empty `llms.txt` — while the claimed
first-non-empty rule would select `llms.txt`. -/
theorem selectStatic_nonNull_not_nonEmpty :
    selectStatic probeEx =
      some { content := some "", location := "docs/docs/llms.txt", branch := "main" } ∧
    selectStaticSpec probeEx =
      some { content := some "X", location := "llms.txt", branch := "main" } ∧
    selectStatic probeEx ≠ selectStaticSpec probeEx := by decide

/-- C2 (amended): for every fetch outcome `f` and every gathering order
that contains the candidates, the static-path selection picks the first
entry of the ordered candidate list whose fetched content is non-null
(even the empty string) — the choice depends only on the candidate list
order, never on the order in which the concurrent fetches completed. -/
theorem selectStatic_first_nonNull_in_list_order (f : String → Option String)
    (b : String) (order : List String)
    (hsub : ∀ loc ∈ possibleLocations, loc ∈ order) :
    selectStatic (order.map fun l => ProbeResult.mk (f l) l b) =
      possibleLocations.findSome? fun loc =>
        (f loc).map fun c => ProbeResult.mk (some c) loc b := by
  have m1 : "docs/docs/llms.txt" ∈ order := hsub _ (by simp [possibleLocations])
  have m2 : "llms.txt" ∈ order := hsub _ (by simp [possibleLocations])
  have m3 : "docs/llms.txt" ∈ order := hsub _ (by simp [possibleLocations])
  simp only [selectStatic, possibleLocations, List.findSome?_cons, List.findSome?_nil,
    find_probe_result, m1, m2, m3, true_and]
  cases h1 : f "docs/docs/llms.txt" <;> cases h2 : f "llms.txt" <;>
    cases h3 : f "docs/llms.txt" <;> simp [h1, h2, h3]

/-- A completion order that is the reverse of the candidate list. -/
def c2OrderEx : List String := ["docs/llms.txt", "llms.txt", "docs/docs/llms.txt"]

/-- A fetch outcome where only the root `llms.txt` exists. -/
def c2FEx : String → Option String := fun l => if l == "llms.txt" then some "X" else none

/-- Witness for the C2 theorem at a concrete fetch outcome and order. -/
theorem selectStatic_first_nonNull_in_list_order_witness :
    selectStatic (c2OrderEx.map fun l => ProbeResult.mk (c2FEx l) l "main") =
      possibleLocations.findSome? fun loc =>
        (c2FEx loc).map fun c => ProbeResult.mk (some c) loc "main" :=
  selectStatic_first_nonNull_in_list_order c2FEx "main" c2OrderEx (by decide)

/-- C10: whenever `searchFileByName` returns a response (the request
succeeded), the reported `total_count` is the number of raw results whose
filename — the `filename` field, or failing that the last segment of
`path` — is string-equal to the requested filename, the items list has
exactly that length, and every returned item is the transformation of such
an exact match; a raw result that merely contains the filename as a
substring is never surfaced. -/
theorem searchFileByName_exact_matches_only (filename ns proj base : String)
    (ok : Bool) (results : List RawSearchItem) (r : SearchResponse)
    (h : searchFileByName filename ns proj base (some (ok, results)) = some r) :
    r.totalCount = (results.filter (matchFilename filename)).length ∧
    r.items.length = r.totalCount ∧
    (∀ x ∈ r.items, ∃ it, it ∈ results ∧ matchFilename filename it = true ∧
      x = transformItem base ns proj it) := by
  unfold searchFileByName at h
  cases ok with
  | false => simp at h
  | true =>
    simp only [Bool.not_true, Bool.false_eq_true, if_false, Option.some.injEq] at h
    subst h
    refine ⟨rfl, by simp, ?_⟩
    intro x hx
    simp only [List.mem_map] at hx
    obtain ⟨it, hit, hx⟩ := hx
    rw [List.mem_filter] at hit
    exact ⟨it, hit.1, hit.2, hx.symm⟩

/-- A raw search response with one exact match and one substring match. -/
def c10Items : List RawSearchItem :=
  [{ filename := some "llms.txt", path := some "docs/llms.txt", projectId := some 5, ref := some "main" },
   { filename := none, path := some "docs/llms.txt.bak", projectId := none, ref := none }]

/-- The response `searchFileByName` produces on `c10Items`. -/
def c10R : SearchResponse :=
  { totalCount := 1
    items := [{ path := some "docs/llms.txt"
                htmlUrl := some "https://gitlab.com/o/p/-/blob/main/docs/llms.txt"
                repositoryFullName := "o/p" }] }

/-- Witness for the C10 theorem at a concrete raw response. -/
theorem searchFileByName_exact_matches_only_witness :
    c10R.totalCount = (c10Items.filter (matchFilename "llms.txt")).length ∧
    c10R.items.length = c10R.totalCount ∧
    (∀ x ∈ c10R.items, ∃ it, it ∈ c10Items ∧ matchFilename "llms.txt" it = true ∧
      x = transformItem "https://gitlab.com" "o" "p" it) :=
  searchFileByName_exact_matches_only "llms.txt" "o" "p" "https://gitlab.com"
    true c10Items c10R (by decide)

/-- Every invocation recorded by a run of the client core keeps the
original `url` and `options`; the first invocation carries the caller's
`useAuth`, and every re-invocation carries `useAuth = true` (the default),
whatever the caller passed. -/
theorem callsOf_gitlabApiRequestGo (oracle : Nat → FetchOutcome)
    (nowAt : Nat → Int) (url options : String) :
    ∀ (n : Nat) (useAuth : Bool) (rc : Nat) (st : RateLimitInfo),
      ∀ c ∈ callsOf (gitlabApiRequestGo oracle nowAt url options n useAuth rc st).2.2,
        c.url = url ∧ c.options = options ∧ rc ≤ c.retryCount ∧
        (c.retryCount = rc → c.useAuth = useAuth) ∧
        (rc < c.retryCount → c.useAuth = true) := by
  intro n
  induction n with
  | zero =>
    intro useAuth rc st c hc
    cases ho : oracle rc <;>
      simp only [gitlabApiRequestGo, ho, callsOf, List.filterMap, List.mem_singleton] at hc <;>
        subst hc <;> simp
  | succ n ih =>
    intro useAuth rc st c hc
    have step : ∀ st' : RateLimitInfo,
        c ∈ callsOf (gitlabApiRequestGo oracle nowAt url options n true (rc+1) st').2.2 →
        c.url = url ∧ c.options = options ∧ rc ≤ c.retryCount ∧
        (c.retryCount = rc → c.useAuth = useAuth) ∧
        (rc < c.retryCount → c.useAuth = true) := by
      intro st' hmem
      obtain ⟨h1, h2, h3, h4, h5⟩ := ih true (rc+1) st' c hmem
      refine ⟨h1, h2, by omega, fun he => by omega, fun hlt => ?_⟩
      rcases Nat.lt_or_ge (rc+1) c.retryCount with hlt2 | hge
      · exact h5 hlt2
      · exact h4 (by omega)
    cases ho : oracle rc with
    | networkError =>
      simp only [gitlabApiRequestGo, ho, callsOf, List.filterMap_cons, List.mem_cons] at hc
      rcases hc with hc | hc
      · subst hc; simp
      · exact step st hc
    | success r =>
      by_cases h429 : r.status == 429
      · simp only [gitlabApiRequestGo, ho, h429, if_true, callsOf,
          List.filterMap_cons, List.mem_cons] at hc
        rcases hc with hc | hc
        · subst hc; simp
        · exact step _ hc
      · simp only [gitlabApiRequestGo, ho, h429, if_false, callsOf,
          List.filterMap, List.mem_singleton] at hc
        subst hc; simp

/-- C1 (amended): a throttled (429) or network-failure retry re-invokes
`gitlabApiRequest` with the same `url` and the same `options` and an
incremented counter, but the `useAuth` flag is NOT forwarded: every retry
invocation runs with the default `useAuth = true`, so the flag is
preserved only when the original call already used `true`. -/
theorem gitlabApiRequest_retry_args (oracle : Nat → FetchOutcome)
    (nowAt : Nat → Int) (url options : String) (useAuth : Bool) (rc : Nat)
    (st : RateLimitInfo) :
    ∀ c ∈ callsOf (gitlabApiRequest oracle nowAt url options useAuth rc st).2.2,
      c.url = url ∧ c.options = options ∧ rc ≤ c.retryCount ∧
      (c.retryCount = rc → c.useAuth = useAuth) ∧
      (rc < c.retryCount → c.useAuth = true) :=
  callsOf_gitlabApiRequestGo oracle nowAt url options (MAX_RETRIES - rc) useAuth rc st

/-- One 429 response followed by successes. -/
def oracle429Once : Nat → FetchOutcome := fun rc =>
  if rc == 0 then FetchOutcome.success { status := 429, headers := noHeaders, body := "limit" }
  else FetchOutcome.success { status := 200, headers := noHeaders, body := "ok" }

/-- A constant clock. -/
def nowZero : Nat → Int := fun _ => 0

/-- C1 counterexample: a call made with `useAuth = false` that is throttled
once produces a retry invocation whose `useAuth` is `true` — the retry does
NOT pass the same `useAuth` flag as the original call. -/
theorem gitlabApiRequest_useAuth_not_forwarded :
    callsOf (gitlabApiRequest oracle429Once nowZero "u" "o" false 0 initialRateLimit).2.2 =
      [{ url := "u", options := "o", useAuth := false, retryCount := 0 },
       { url := "u", options := "o", useAuth := true, retryCount := 1 }] ∧
    ¬ (∀ c ∈ callsOf (gitlabApiRequest oracle429Once nowZero "u" "o" false 0 initialRateLimit).2.2,
        c.useAuth = false) := by decide

/-- The retry invocation record of the `oracle429Once` run. -/
def c1CallEx : CallRec := { url := "u", options := "o", useAuth := true, retryCount := 1 }

/-- Witness for the C1 theorem at the retry invocation of a concrete run. -/
theorem gitlabApiRequest_retry_args_witness :
    c1CallEx.url = "u" ∧ c1CallEx.options = "o" ∧ 0 ≤ c1CallEx.retryCount ∧
    (c1CallEx.retryCount = 0 → c1CallEx.useAuth = false) ∧
    (0 < c1CallEx.retryCount → c1CallEx.useAuth = true) :=
  gitlabApiRequest_retry_args oracle429Once nowZero "u" "o" false 0 initialRateLimit
    c1CallEx (by decide)

/-- C4: a 429 received when retries are exhausted is returned as-is. With
`retryCount ≥ MAX_RETRIES` any received response — in particular a 429 —
is returned itself, neither `null` nor an error; and a request whose four
attempts all draw 429 responses returns the last (fourth) 429 response. -/
theorem gitlabApiRequest_429_returned (oracle : Nat → FetchOutcome)
    (nowAt : Nat → Int) (url options : String) (useAuth : Bool)
    (st : RateLimitInfo) :
    (∀ (rc : Nat) (r : GLResponse), MAX_RETRIES ≤ rc →
      oracle rc = FetchOutcome.success r →
      (gitlabApiRequest oracle nowAt url options useAuth rc st).1 = some r) ∧
    (∀ resp : Nat → GLResponse,
      (∀ k, k ≤ MAX_RETRIES →
        oracle k = FetchOutcome.success (resp k) ∧ (resp k).status = 429) →
      (gitlabApiRequest oracle nowAt url options useAuth 0 st).1 =
        some (resp MAX_RETRIES)) := by
  constructor
  · intro rc r hle ho
    rw [gitlabApiRequest, Nat.sub_eq_zero_of_le hle]
    simp [gitlabApiRequestGo, ho]
  · intro resp hall
    have h0 := hall 0 (by decide)
    have h1 := hall 1 (by decide)
    have h2 := hall 2 (by decide)
    have h3 := hall 3 (by decide)
    rw [gitlabApiRequest]
    show (gitlabApiRequestGo oracle nowAt url options 3 useAuth 0 st).1 =
      some (resp MAX_RETRIES)
    simp [gitlabApiRequestGo, h0.1, h0.2, h1.1, h1.2, h2.1, h2.2, h3.1, MAX_RETRIES]

/-- A response that is always 429. -/
def resp429 : GLResponse := { status := 429, headers := noHeaders, body := "limit" }

/-- Witness for the C4 theorem: four straight 429s return the last 429. -/
theorem gitlabApiRequest_429_returned_witness :
    (gitlabApiRequest (fun _ => FetchOutcome.success resp429) nowZero "u" "o" true 0
      initialRateLimit).1 = some resp429 :=
  (gitlabApiRequest_429_returned (fun _ => FetchOutcome.success resp429) nowZero
    "u" "o" true initialRateLimit).2 (fun _ => resp429) (fun k hk => ⟨rfl, rfl⟩)

/-- A run of the client core from `retryCount = rc` with
`retriesLeft = MAX_RETRIES - rc` returns `null` exactly when the last
allowed attempt fails at the network level and every earlier attempt was
retriable (a network failure or a 429). -/
theorem gitlabApiRequestGo_none_iff (oracle : Nat → FetchOutcome)
    (nowAt : Nat → Int) (url options : String) :
    ∀ (n : Nat) (useAuth : Bool) (rc : Nat) (st : RateLimitInfo),
      rc + n = MAX_RETRIES →
      ((gitlabApiRequestGo oracle nowAt url options n useAuth rc st).1 = none ↔
        oracle MAX_RETRIES = FetchOutcome.networkError ∧
        ∀ k, rc ≤ k → k < MAX_RETRIES → isRetryOutcome (oracle k) = true) := by
  intro n
  induction n with
  | zero =>
    intro useAuth rc st hrc
    have hrc3 : rc = MAX_RETRIES := by omega
    subst hrc3
    constructor
    · intro hnone
      cases ho : oracle MAX_RETRIES with
      | networkError => exact ⟨rfl, fun k hk1 hk2 => absurd hk2 (by omega)⟩
      | success r => simp [gitlabApiRequestGo, ho] at hnone
    · rintro ⟨h3, hk⟩
      simp [gitlabApiRequestGo, h3]
  | succ n ih =>
    intro useAuth rc st hrc
    have hlt : rc < MAX_RETRIES := by omega
    cases ho : oracle rc with
    | networkError =>
      have hIH := ih true (rc+1) st (by omega)
      simp only [gitlabApiRequestGo, ho]
      rw [hIH]
      constructor
      · rintro ⟨h3, hk⟩
        refine ⟨h3, fun k hk1 hk2 => ?_⟩
        rcases Nat.eq_or_lt_of_le hk1 with he | hgt
        · rw [← he, ho]; rfl
        · exact hk k (by omega) hk2
      · rintro ⟨h3, hk⟩
        exact ⟨h3, fun k hk1 hk2 => hk k (by omega) hk2⟩
    | success r =>
      by_cases h429 : r.status = 429
      · have hb : (r.status == 429) = true := by simp [h429]
        have hIH := ih true (rc+1) (updateRateLimitFromHeaders r.headers st) (by omega)
        simp only [gitlabApiRequestGo, ho, hb, if_true]
        rw [hIH]
        constructor
        · rintro ⟨h3, hk⟩
          refine ⟨h3, fun k hk1 hk2 => ?_⟩
          rcases Nat.eq_or_lt_of_le hk1 with he | hgt
          · rw [← he, ho]; simp [isRetryOutcome, hb]
          · exact hk k (by omega) hk2
        · rintro ⟨h3, hk⟩
          exact ⟨h3, fun k hk1 hk2 => hk k (by omega) hk2⟩
      · have hb : (r.status == 429) = false := by simp [h429]
        simp only [gitlabApiRequestGo, ho, hb, if_false]
        constructor
        · intro h
          simp at h
        · rintro ⟨h3, hk⟩
          have hrc' := hk rc (le_refl rc) hlt
          rw [ho] at hrc'
          simp [isRetryOutcome, hb] at hrc'

/-- C5: `gitlabApiRequest` returns `null` exactly when the final allowed
attempt is a network failure and every earlier attempt was retriable; a
network failure with retries remaining suspends 2000 ms and re-invokes
with an incremented counter (same url and options, default auth); and any
received non-429 response — every other HTTP-level failure included — is
returned as an ordinary response, never as `null`. -/
theorem gitlabApiRequest_null_iff_network_exhausted (oracle : Nat → FetchOutcome)
    (nowAt : Nat → Int) (url options : String) (useAuth : Bool)
    (st : RateLimitInfo) :
    ((gitlabApiRequest oracle nowAt url options useAuth 0 st).1 = none ↔
      oracle MAX_RETRIES = FetchOutcome.networkError ∧
      ∀ k, k < MAX_RETRIES → isRetryOutcome (oracle k) = true) ∧
    (∀ rc, rc < MAX_RETRIES → oracle rc = FetchOutcome.networkError →
      gitlabApiRequest oracle nowAt url options useAuth rc st =
        ((gitlabApiRequest oracle nowAt url options true (rc+1) st).1,
         (gitlabApiRequest oracle nowAt url options true (rc+1) st).2.1,
         GLEvent.wait (some (respectRateLimitsDelay st (nowAt rc))) WaitKind.preCall ::
           GLEvent.call { url := url, options := options, useAuth := useAuth, retryCount := rc } ::
           GLEvent.wait (some 2000) WaitKind.network ::
           (gitlabApiRequest oracle nowAt url options true (rc+1) st).2.2)) ∧
    (∀ (rc : Nat) (r : GLResponse), oracle rc = FetchOutcome.success r →
      r.status ≠ 429 →
      (gitlabApiRequest oracle nowAt url options useAuth rc st).1 = some r) := by
  refine ⟨?_, ?_, ?_⟩
  · rw [gitlabApiRequest,
      gitlabApiRequestGo_none_iff oracle nowAt url options (MAX_RETRIES - 0) useAuth 0 st (by omega)]
    constructor
    · rintro ⟨h3, hk⟩
      exact ⟨h3, fun k hk2 => hk k (by omega) hk2⟩
    · rintro ⟨h3, hk⟩
      exact ⟨h3, fun k _ hk2 => hk k hk2⟩
  · intro rc hlt ho
    have hms : MAX_RETRIES - rc = (MAX_RETRIES - (rc+1)) + 1 := by omega
    simp only [gitlabApiRequest, hms]
    simp [gitlabApiRequestGo, ho]
  · intro rc r ho hne
    have hb : (r.status == 429) = false := by simp [hne]
    cases hn : MAX_RETRIES - rc with
    | zero =>
      simp only [gitlabApiRequest, hn]
      simp [gitlabApiRequestGo, ho]
    | succ m =>
      simp only [gitlabApiRequest, hn]
      simp [gitlabApiRequestGo, ho, hb]

/-- A fetch that always fails at the network level. -/
def oracleNetFail : Nat → FetchOutcome := fun _ => FetchOutcome.networkError

/-- A plain server-error response. -/
def resp500 : GLResponse := { status := 500, headers := noHeaders, body := "err" }

/-- A fetch that always returns the 500 response. -/
def oracle500 : Nat → FetchOutcome := fun _ => FetchOutcome.success resp500

/-- Witness for the C5 theorem: persistent network failure yields `null`,
and a 500 response is returned as an ordinary response. -/
theorem gitlabApiRequest_null_iff_network_exhausted_witness :
    (gitlabApiRequest oracleNetFail nowZero "u" "o" true 0 initialRateLimit).1 = none ∧
    (gitlabApiRequest oracle500 nowZero "u" "o" true 0 initialRateLimit).1 = some resp500 :=
  ⟨(gitlabApiRequest_null_iff_network_exhausted oracleNetFail nowZero "u" "o" true
      initialRateLimit).1.mpr ⟨rfl, fun k hk => rfl⟩,
   (gitlabApiRequest_null_iff_network_exhausted oracle500 nowZero "u" "o" true
      initialRateLimit).2.2 0 resp500 rfl (by decide)⟩

/-- A nullable string is truthy exactly when it holds a non-empty string. -/
theorem truthyS_eq_true_iff (o : Option String) :
    truthyS o = true ↔ ∃ s, o = some s ∧ s ≠ "" := by
  cases o <;> simp [truthyS]

/-- The search fallback never emits a content-cache write. -/
theorem cascadeSearch_no_cacheWrite (env : ResolverEnv) (st : DocState) :
    ∀ e ∈ (cascadeSearch env st).2, isCacheWrite e = false := by
  intro e he
  cases hc : truthyS st.content with
  | true => simp [cascadeSearch, hc] at he
  | false =>
    cases hs : env.search "llms.txt" with
    | none =>
      simp [cascadeSearch, hc, hs] at he
      subst he; rfl
    | some gf =>
      simp [cascadeSearch, hc, hs] at he
      subst he; rfl

/-- The R2 fallback never emits a content-cache write. -/
theorem cascadeR2_no_cacheWrite (ns proj : String) (env : ResolverEnv) (st : DocState) :
    ∀ e ∈ (cascadeR2 ns proj env st).2, isCacheWrite e = false := by
  intro e he
  cases hc : truthyS st.content with
  | true => simp [cascadeR2, hc] at he
  | false =>
    simp [cascadeR2, hc] at he
    subst he; rfl

/-- The README fallback never emits a content-cache write. -/
theorem cascadeReadme_no_cacheWrite (ns proj : String) (env : ResolverEnv) (st : DocState) :
    ∀ e ∈ (cascadeReadme ns proj env st).2, isCacheWrite e = false := by
  intro e he
  cases hc : truthyS st.content with
  | true => simp [cascadeReadme, hc] at he
  | false =>
    cases hb : st.docsBranch == "" <;> cases hs : env.search "README+path:/" <;>
      simp [cascadeReadme, hc, hb, hs] at he <;>
        first
          | (subst he; rfl)
          | (rcases he with he | he <;> (subst he; rfl))

/-- The whole gitlab cascade never emits a content-cache write. -/
theorem gitlabCascade_no_cacheWrite (ns proj : String) (env : ResolverEnv) :
    ∀ e ∈ (gitlabCascade ns proj env).2, isCacheWrite e = false := by
  intro e he
  simp only [gitlabCascade, List.mem_append] at he
  rcases he with ((he | he) | he) | he
  · simp [possibleLocations] at he
    rcases he with rfl | rfl | rfl | rfl <;> rfl
  · exact cascadeSearch_no_cacheWrite env _ e he
  · exact cascadeR2_no_cacheWrite ns proj env _ e he
  · exact cascadeReadme_no_cacheWrite ns proj env _ e he

/-- The subdomain (GitLab Pages) flow never emits a content-cache write. -/
theorem subdomainFlow_no_cacheWrite (repo : RepoData) (env : ResolverEnv) :
    ∀ e ∈ (subdomainFlow repo env).2, isCacheWrite e = false := by
  intro e he
  simp only [subdomainFlow, apply_ite Prod.snd] at he
  repeat' split at he
  all_goals simp_all [isCacheWrite]
  all_goals casesm* _ ∨ _
  all_goals subst_vars
  all_goals rfl

/-- The urlType dispatch never emits a content-cache write. -/
theorem resolveByUrlType_no_cacheWrite (repo : RepoData) (env : ResolverEnv) :
    ∀ e ∈ (resolveByUrlType repo env).2, isCacheWrite e = false := by
  intro e he
  unfold resolveByUrlType at he
  cases hu : repo.urlType with
  | subdomain =>
    rw [hu] at he
    exact subdomainFlow_no_cacheWrite repo env e he
  | gitlab =>
    rw [hu] at he
    cases hnp : nsProj repo with
    | some pr =>
      rw [hnp] at he
      exact gitlabCascade_no_cacheWrite pr.1 pr.2 env e he
    | none =>
      rw [hnp] at he
      simp at he
  | unknown =>
    rw [hu] at he
    simp at he

/-- Any content-cache write emitted by a resolution run writes, under the
run's truthy coordinates, exactly the run's returned result with the fixed
TTL, and that result's single text block is non-empty. -/
theorem fetchDocumentationCore_cacheWrite (repo : RepoData) (env : ResolverEnv) :
    ∀ e ∈ (fetchDocumentationCore repo env).2, isCacheWrite e = true →
      ∃ ns proj c, nsProj repo = some (ns, proj) ∧ c ≠ "" ∧
        (fetchDocumentationCore repo env).1.content = [{ text := c }] ∧
        e = REffect.cacheWrite ns proj (fetchDocumentationCore repo env).1 cacheTTL := by
  intro e he hw
  cases hts : truthyS (resolveByUrlType repo env).1.content with
  | false =>
    exfalso
    simp only [fetchDocumentationCore, hts, Bool.false_eq_true, if_false,
      List.mem_append] at he
    rcases he with he | he
    · rw [resolveByUrlType_no_cacheWrite repo env e he] at hw
      exact Bool.false_ne_true hw
    · cases hnp : nsProj repo with
      | some pr =>
        rw [hnp] at he
        simp at he
        subst he
        exact Bool.false_ne_true hw
      | none =>
        rw [hnp] at he
        simp at he
  | true =>
    obtain ⟨c, hcs, hcne⟩ := (truthyS_eq_true_iff _).mp hts
    simp only [fetchDocumentationCore, hts, if_true, List.mem_append] at he ⊢
    rcases he with (he | he) | he
    · exfalso
      rw [resolveByUrlType_no_cacheWrite repo env e he] at hw
      exact Bool.false_ne_true hw
    · exfalso
      cases hnp : nsProj repo with
      | some pr =>
        rw [hnp] at he
        simp at he
        subst he
        exact Bool.false_ne_true hw
      | none =>
        rw [hnp] at he
        simp at he
    · cases hnp : nsProj repo with
      | some pr =>
        rw [hnp] at he
        simp at he
        subst he
        exact ⟨pr.1, pr.2, c, rfl, hcne, by simp [hcs], by simp⟩
      | none =>
        rw [hnp] at he
        simp at he

/-- C3: a live content-cache entry is returned exactly as cached, with no
upstream GitLab call, no R2 or Pages fetch, no background enqueue and no
cache write — the cache read is the run's only effect; an entry written
with the resolver's TTL is live (hence returned identically) at any time
within that TTL of the write; and any content-cache write any run emits
stores exactly that run's returned result with the resolver's TTL, so two
resolutions of the same coordinates within the TTL window return identical
results with a single upstream resolution. -/
theorem fetchDocumentation_cacheHit (repo : RepoData) (env : ResolverEnv)
    (ns proj : String) (r : FetchDocumentationResult)
    (hnp : nsProj repo = some (ns, proj)) (hc : env.cached = some r) :
    fetchDocumentation repo env = (r, [REffect.cacheRead ns proj]) ∧
    (∀ t0 t1 : Int, t1 < t0 + (cacheTTL : Int) →
      cacheGet (some (cachePut r (cacheTTL : Int) t0)) t1 = some r) ∧
    (∀ env' : ResolverEnv, ∀ res ttl,
      REffect.cacheWrite ns proj res ttl ∈ (fetchDocumentation repo env').2 →
      res = (fetchDocumentation repo env').1 ∧ ttl = cacheTTL) := by
  refine ⟨?_, ?_, ?_⟩
  · simp [fetchDocumentation, hnp, hc]
  · intro t0 t1 ht
    simp [cacheGet, cachePut, ht]
  · intro env' res ttl hmem
    cases hc' : env'.cached with
    | some r' =>
      simp only [fetchDocumentation, hnp, hc'] at hmem
      simp at hmem
    | none =>
      simp only [fetchDocumentation, hnp, hc'] at hmem ⊢
      rw [List.mem_cons] at hmem
      rcases hmem with hmem | hmem
      · simp at hmem
      · obtain ⟨ns2, proj2, c, hnp2, hcne, hcontent, heq⟩ :=
          fetchDocumentationCore_cacheWrite repo env' _ hmem rfl
        rw [REffect.cacheWrite.injEq] at heq
        exact ⟨heq.2.2.1, heq.2.2.2⟩

/-- Coordinates of a concrete gitlab-urlType repository. -/
def c3Repo : RepoData :=
  { nspace := some "org", project := some "repo", urlType := UrlType.gitlab }

/-- A concrete resolved-document result. -/
def c3Res : FetchDocumentationResult :=
  { fileUsed := "llms.txt", content := [{ text := "hello" }] }

/-- An environment where every collaborator fails or is empty. -/
def envNull : ResolverEnv :=
  { cached := none, repoBranch := "main", staticFetch := fun _ => none,
    search := fun _ => none, r2llms := none,
    pages := fun _ => { blockedByRobots := false, content := none },
    htmlToMd := fun _ => none, gitlabBaseUrl := "https://gitlab.com" }

/-- `envNull` with a live cached result. -/
def c3Env : ResolverEnv := { envNull with cached := some c3Res }

/-- Witness for the C3 theorem at a concrete repository and cache state. -/
theorem fetchDocumentation_cacheHit_witness :
    fetchDocumentation c3Repo c3Env = (c3Res, [REffect.cacheRead "org" "repo"]) ∧
    (∀ t0 t1 : Int, t1 < t0 + (cacheTTL : Int) →
      cacheGet (some (cachePut c3Res (cacheTTL : Int) t0)) t1 = some c3Res) ∧
    (∀ env' : ResolverEnv, ∀ res ttl,
      REffect.cacheWrite "org" "repo" res ttl ∈ (fetchDocumentation c3Repo env').2 →
      res = (fetchDocumentation c3Repo env').1 ∧ ttl = cacheTTL) :=
  fetchDocumentation_cacheHit c3Repo c3Env "org" "repo" c3Res (by decide) rfl

/-- When the content cache misses and every strategy fails (no static
path, no search hit, no R2 blob, no README match), the gitlab cascade
terminates with no content, the untouched `unknown` label, and only probe
effects. -/
theorem gitlabCascade_exhausted (ns proj : String) (env : ResolverEnv)
    (hs : ∀ loc, env.staticFetch loc = none) (hq : ∀ q, env.search q = none)
    (hr : env.r2llms = none) :
    (gitlabCascade ns proj env).1 =
      { fileUsed := "unknown", content := none, docsPath := "",
        docsBranch := env.repoBranch } ∧
    (gitlabCascade ns proj env).2 =
      [REffect.gitlabCall "getRepoBranch",
       REffect.gitlabCall "fetchFileFromGitLab:docs/docs/llms.txt",
       REffect.gitlabCall "fetchFileFromGitLab:llms.txt",
       REffect.gitlabCall "fetchFileFromGitLab:docs/llms.txt",
       REffect.gitlabCall "searchGitLabRepo:llms.txt",
       REffect.r2Get ns proj "llms.txt"] ++
      (if env.repoBranch == "" then [REffect.gitlabCall "getRepoBranch"] else []) ++
      [REffect.gitlabCall "searchGitLabRepo:README"] := by
  by_cases hb : env.repoBranch = ""
  · constructor <;>
      simp [gitlabCascade, cascadeStatic, cascadeSearch, cascadeR2, cascadeReadme,
        selectStatic, possibleLocations, hs, hq, hr, hb, truthyS]
  · constructor <;>
      simp [gitlabCascade, cascadeStatic, cascadeSearch, cascadeR2, cascadeReadme,
        selectStatic, possibleLocations, hs, hq, hr, hb, truthyS]

/-- C8: when the content cache misses and every resolution strategy fails
(no static path, no search hit, no R2 blob entry, no README match),
`fetchDocumentation` returns normally, with the sentinel text
"No documentation found." as its only content block — exhaustion is an
ordinary return value, not a propagated exception. -/
theorem fetchDocumentation_exhaustion_sentinel (repo : RepoData) (env : ResolverEnv)
    (ns proj : String) (hnp : nsProj repo = some (ns, proj))
    (hurl : repo.urlType = UrlType.gitlab) (hc : env.cached = none)
    (hs : ∀ loc, env.staticFetch loc = none) (hq : ∀ q, env.search q = none)
    (hr : env.r2llms = none) :
    (fetchDocumentation repo env).1 =
      { fileUsed := "unknown", content := [{ text := sentinelText }] } := by
  have hcas := gitlabCascade_exhausted ns proj env hs hq hr
  simp only [fetchDocumentation, hnp, hc, fetchDocumentationCore, resolveByUrlType, hurl]
  simp [hcas.1, truthyS]

/-- Witness for the C8 theorem at a concrete repository and environment. -/
theorem fetchDocumentation_exhaustion_sentinel_witness :
    (fetchDocumentation c3Repo envNull).1 =
      { fileUsed := "unknown", content := [{ text := sentinelText }] } :=
  fetchDocumentation_exhaustion_sentinel c3Repo envNull "org" "repo" (by decide) rfl rfl
    (fun _ => rfl) (fun _ => rfl) rfl

/-- C9: when the cascade exhausts with empty content no content-cache
write is scheduled at all, and — for any run whatever — a scheduled
content-cache write always carries a result whose single text block is a
non-empty resolved content, so a negative result never enters the content
cache. -/
theorem fetchDocumentation_no_negative_cacheWrite (repo : RepoData) (ns proj : String)
    (hnp : nsProj repo = some (ns, proj)) (hurl : repo.urlType = UrlType.gitlab) :
    (∀ env : ResolverEnv, env.cached = none → (∀ loc, env.staticFetch loc = none) →
      (∀ q, env.search q = none) → env.r2llms = none →
      ∀ e ∈ (fetchDocumentation repo env).2, isCacheWrite e = false) ∧
    (∀ env : ResolverEnv, ∀ res ttl,
      REffect.cacheWrite ns proj res ttl ∈ (fetchDocumentation repo env).2 →
      ∃ c, c ≠ "" ∧ res.content = [{ text := c }]) := by
  constructor
  · intro env hc hs hq hr e he
    have hcas := gitlabCascade_exhausted ns proj env hs hq hr
    simp only [fetchDocumentation, hnp, hc, fetchDocumentationCore, resolveByUrlType, hurl] at he
    by_cases hb : env.repoBranch = "" <;>
      simp [hcas.1, hcas.2, truthyS, hb] at he <;>
        casesm* _ ∨ _ <;> subst_vars <;> rfl
  · intro env res ttl hmem
    cases hc' : env.cached with
    | some r' =>
      simp only [fetchDocumentation, hnp, hc'] at hmem
      simp at hmem
    | none =>
      simp only [fetchDocumentation, hnp, hc'] at hmem
      rw [List.mem_cons] at hmem
      rcases hmem with hmem | hmem
      · simp at hmem
      · obtain ⟨ns2, proj2, c, hnp2, hcne, hcontent, heq⟩ :=
          fetchDocumentationCore_cacheWrite repo env _ hmem rfl
        rw [REffect.cacheWrite.injEq] at heq
        exact ⟨c, hcne, by rw [heq.2.2.1]; exact hcontent⟩

/-- Witness for the C9 theorem at a concrete run. -/
theorem fetchDocumentation_no_negative_cacheWrite_witness :
    isCacheWrite (REffect.cacheRead "org" "repo") = false :=
  (fetchDocumentation_no_negative_cacheWrite c3Repo "org" "repo" (by decide) rfl).1
    envNull rfl (fun _ => rfl) (fun _ => rfl) rfl (REffect.cacheRead "org" "repo") (by decide)
